import Mathlib

/-!
Shallow embedding of the checked integer-conversion library (src/int.rs).

The source implements, via five macros instantiated over explicit type-pair
tables, the trait method `TryFrom::try_from` converting one fixed-width
machine integer kind into another.  We model machine-integer values as
mathematical integers together with a `Kind` (signedness and byte width);
pointer-sized kinds (`usize`, `isize`) have a byte width given by a
parameter `pw` (4 on a 32-bit target, 8 on a 64-bit target).  The Rust
`as` cast is modelled bit-faithfully by `asCast` (truncate to the low bits,
then reinterpret in the signedness of the destination).  Each macro body is
translated literally into one Lean function, and the instantiation tables
into lists of (destination, source) pairs; `try_from` dispatches on them.
-/

namespace TryFromInt

/-- The error type of a fallible conversion, from src/int.rs lines 12-15. -/
inductive TryFromIntError where
  | Overflow
  | Underflow
deriving DecidableEq, Repr

/-- The uninhabited error type used by the infallible conversions. -/
inductive Void where
deriving DecidableEq

/-- The ten machine-integer kinds appearing in the instantiation tables. -/
inductive Kind where
  | u8 | u16 | u32 | u64 | usize
  | i8 | i16 | i32 | i64 | isize
deriving DecidableEq, Repr

/-- `mem::size_of` in bytes; `pw` is the pointer width in bytes. -/
def size_of (pw : Nat) : Kind → Nat
  | .u8 => 1 | .u16 => 2 | .u32 => 4 | .u64 => 8 | .usize => pw
  | .i8 => 1 | .i16 => 2 | .i32 => 4 | .i64 => 8 | .isize => pw

/-- Whether a kind is a signed integer type. -/
def isSigned : Kind → Bool
  | .u8 | .u16 | .u32 | .u64 | .usize => false
  | .i8 | .i16 | .i32 | .i64 | .isize => true

/-- Bit width of a kind. -/
def bits (pw : Nat) (k : Kind) : Nat := 8 * size_of pw k

/-- Exponent such that the maximum of the kind is `2 ^ maxExp - 1`. -/
def maxExp (pw : Nat) (k : Kind) : Nat :=
  if isSigned k then bits pw k - 1 else bits pw k

/-- The `MAX` constant of a kind, as a mathematical integer. -/
def maxVal (pw : Nat) (k : Kind) : Int := 2 ^ maxExp pw k - 1

/-- The `MIN` constant of a kind, as a mathematical integer. -/
def minVal (pw : Nat) (k : Kind) : Int :=
  if isSigned k then -(2 ^ (bits pw k - 1)) else 0

/-- A mathematical integer is a value of the kind. -/
def representable (pw : Nat) (k : Kind) (v : Int) : Prop :=
  minVal pw k ≤ v ∧ v ≤ maxVal pw k

instance (pw : Nat) (k : Kind) (v : Int) : Decidable (representable pw k v) :=
  inferInstanceAs (Decidable (_ ∧ _))

/-- The Rust `as` cast between integer types: truncate to the low bits of
the destination kind, then reinterpret those bits in its signedness. -/
def asCast (pw : Nat) (k : Kind) (v : Int) : Int :=
  let m := v % 2 ^ bits pw k
  if isSigned k ∧ 2 ^ (bits pw k - 1) ≤ m then m - 2 ^ bits pw k else m

/-- Body of `impl_infallible` (src/int.rs lines 38-45): `Ok(n as $t)`,
with the uninhabited error type `Void`. -/
def try_from_infallible (pw : Nat) (t : Kind) (n : Int) : Except Void Int :=
  .ok (asCast pw t n)

/-- Body of `impl_unsigned_from_unsigned` (src/int.rs lines 65-79). -/
def try_from_unsigned_from_unsigned (pw : Nat) (t f : Kind) (n : Int) :
    Except TryFromIntError Int :=
  if size_of pw f > size_of pw t ∧ n > asCast pw f (maxVal pw t) then
    .error .Overflow
  else
    .ok (asCast pw t n)

/-- Body of `impl_unsigned_from_signed` (src/int.rs lines 102-118). -/
def try_from_unsigned_from_signed (pw : Nat) (t f : Kind) (n : Int) :
    Except TryFromIntError Int :=
  if n < 0 then
    .error .Underflow
  else if size_of pw f > size_of pw t ∧ n > asCast pw f (maxVal pw t) then
    .error .Overflow
  else
    .ok (asCast pw t n)

/-- Body of `impl_signed_from_unsigned` (src/int.rs lines 143-157). -/
def try_from_signed_from_unsigned (pw : Nat) (t f : Kind) (n : Int) :
    Except TryFromIntError Int :=
  if size_of pw f ≥ size_of pw t ∧ n > asCast pw f (maxVal pw t) then
    .error .Overflow
  else
    .ok (asCast pw t n)

/-- Body of `impl_signed_from_signed` (src/int.rs lines 184-201). -/
def try_from_signed_from_signed (pw : Nat) (t f : Kind) (n : Int) :
    Except TryFromIntError Int :=
  if size_of pw f > size_of pw t then
    if n > asCast pw f (maxVal pw t) then .error .Overflow
    else if n < asCast pw f (minVal pw t) then .error .Underflow
    else .ok (asCast pw t n)
  else .ok (asCast pw t n)

/-- Instantiation table of `impl_infallible!` (src/int.rs lines 47-58),
as (destination, source) pairs: `$t from $f` becomes `(t, f)`. -/
def infallible_table : List (Kind × Kind) :=
  [(.u8, .u8),
   (.u16, .u8), (.u16, .u16),
   (.u32, .u8), (.u32, .u16), (.u32, .u32),
   (.u64, .u8), (.u64, .u16), (.u64, .u32), (.u64, .u64), (.u64, .usize),
   (.usize, .u8), (.usize, .u16), (.usize, .u32), (.usize, .usize),
   (.i8, .i8),
   (.i16, .u8), (.i16, .i8), (.i16, .i16),
   (.i32, .u8), (.i32, .u16), (.i32, .i8), (.i32, .i16), (.i32, .i32),
   (.i64, .u8), (.i64, .u16), (.i64, .u32), (.i64, .i8), (.i64, .i16),
   (.i64, .i32), (.i64, .i64), (.i64, .isize),
   (.isize, .u8), (.isize, .u16), (.isize, .i8), (.isize, .i16),
   (.isize, .i32), (.isize, .isize)]

/-- Instantiation table of `impl_unsigned_from_unsigned!`
(src/int.rs lines 81-86). -/
def unsigned_from_unsigned_table : List (Kind × Kind) :=
  [(.u8, .u16), (.u8, .u32), (.u8, .u64), (.u8, .usize),
   (.u16, .u32), (.u16, .u64), (.u16, .usize),
   (.u32, .u64), (.u32, .usize),
   (.usize, .u64)]

/-- Instantiation table of `impl_unsigned_from_signed!`
(src/int.rs lines 120-126). -/
def unsigned_from_signed_table : List (Kind × Kind) :=
  [(.u8, .i8), (.u8, .i16), (.u8, .i32), (.u8, .i64), (.u8, .isize),
   (.u16, .i8), (.u16, .i16), (.u16, .i32), (.u16, .i64), (.u16, .isize),
   (.u32, .i8), (.u32, .i16), (.u32, .i32), (.u32, .i64), (.u32, .isize),
   (.u64, .i8), (.u64, .i16), (.u64, .i32), (.u64, .i64), (.u64, .isize),
   (.usize, .i8), (.usize, .i16), (.usize, .i32), (.usize, .i64),
   (.usize, .isize)]

/-- Instantiation table of `impl_signed_from_unsigned!`
(src/int.rs lines 159-165). -/
def signed_from_unsigned_table : List (Kind × Kind) :=
  [(.i8, .u8), (.i8, .u16), (.i8, .u32), (.i8, .u64), (.i8, .usize),
   (.i16, .u16), (.i16, .u32), (.i16, .u64), (.i16, .usize),
   (.i32, .u32), (.i32, .u64), (.i32, .usize),
   (.i64, .u64), (.i64, .usize),
   (.isize, .u32), (.isize, .u64), (.isize, .usize)]

/-- Instantiation table of `impl_signed_from_signed!`
(src/int.rs lines 203-208). -/
def signed_from_signed_table : List (Kind × Kind) :=
  [(.i8, .i16), (.i8, .i32), (.i8, .i64), (.i8, .isize),
   (.i16, .i32), (.i16, .i64), (.i16, .isize),
   (.i32, .i64), (.i32, .isize),
   (.isize, .i64)]

/-- All (destination, source) pairs for which a `TryFrom` impl exists. -/
def supported_pairs : List (Kind × Kind) :=
  infallible_table ++ unsigned_from_unsigned_table ++
  unsigned_from_signed_table ++ signed_from_unsigned_table ++
  signed_from_signed_table

/-- The (destination, source) pairs handled by one of the four fallible
policies. -/
def fallible_pairs : List (Kind × Kind) :=
  unsigned_from_unsigned_table ++ unsigned_from_signed_table ++
  signed_from_unsigned_table ++ signed_from_signed_table

/-- The whole conversion family: dispatch on the instantiation tables
(`none` when no impl exists for the pair).  For the infallible table the
error channel is uninhabited, so the dispatcher returns the `Ok` value
directly. -/
def try_from (pw : Nat) (t f : Kind) (n : Int) :
    Option (Except TryFromIntError Int) :=
  if (t, f) ∈ infallible_table then
    some (.ok (asCast pw t n))
  else if (t, f) ∈ unsigned_from_unsigned_table then
    some (try_from_unsigned_from_unsigned pw t f n)
  else if (t, f) ∈ unsigned_from_signed_table then
    some (try_from_unsigned_from_signed pw t f n)
  else if (t, f) ∈ signed_from_unsigned_table then
    some (try_from_signed_from_unsigned pw t f n)
  else if (t, f) ∈ signed_from_signed_table then
    some (try_from_signed_from_signed pw t f n)
  else none

/-! ### Arithmetic helper lemmas -/

lemma size_of_pos {pw : Nat} (hpw : 1 ≤ pw) (k : Kind) : 1 ≤ size_of pw k := by
  cases k <;> simp [size_of] <;> omega

lemma bits_pos {pw : Nat} (hpw : 1 ≤ pw) (k : Kind) : 1 ≤ bits pw k := by
  have := size_of_pos hpw k
  unfold bits
  omega

lemma two_pow_pos (n : Nat) : (0 : Int) < 2 ^ n := pow_pos (by norm_num) n

lemma two_pow_mono {a b : Nat} (h : a ≤ b) : (2 : Int) ^ a ≤ 2 ^ b :=
  pow_le_pow_right₀ (by norm_num) h

lemma maxExp_unsigned {k : Kind} (h : isSigned k = false) (pw : Nat) :
    maxExp pw k = bits pw k := by
  simp [maxExp, h]

lemma maxExp_signed {k : Kind} (h : isSigned k = true) (pw : Nat) :
    maxExp pw k = bits pw k - 1 := by
  simp [maxExp, h]

lemma minVal_unsigned {k : Kind} (h : isSigned k = false) (pw : Nat) :
    minVal pw k = 0 := by
  simp [minVal, h]

lemma minVal_signed {k : Kind} (h : isSigned k = true) (pw : Nat) :
    minVal pw k = -(2 ^ (bits pw k - 1)) := by
  simp [minVal, h]

lemma maxVal_nonneg (pw : Nat) (k : Kind) : 0 ≤ maxVal pw k := by
  have h := two_pow_pos (maxExp pw k)
  unfold maxVal
  omega

lemma minVal_nonpos (pw : Nat) (k : Kind) : minVal pw k ≤ 0 := by
  have h := two_pow_pos (bits pw k - 1)
  unfold minVal
  split <;> omega

lemma minVal_le_maxVal (pw : Nat) (k : Kind) : minVal pw k ≤ maxVal pw k :=
  le_trans (minVal_nonpos pw k) (maxVal_nonneg pw k)

lemma maxVal_le_maxVal {pw : Nat} {t f : Kind} (h : maxExp pw t ≤ maxExp pw f) :
    maxVal pw t ≤ maxVal pw f := by
  have := two_pow_mono h
  unfold maxVal
  omega

lemma maxExp_lt_of_maxVal_lt {pw : Nat} {t f : Kind}
    (h : maxVal pw t < maxVal pw f) : maxExp pw t < maxExp pw f := by
  by_contra hc
  push_neg at hc
  exact absurd h (not_lt.mpr (maxVal_le_maxVal hc))

lemma minVal_le_minVal {pw : Nat} {t f : Kind} (ht : isSigned t = true)
    (hf : isSigned f = true) (h : bits pw t ≤ bits pw f) :
    minVal pw f ≤ minVal pw t := by
  rw [minVal_signed ht, minVal_signed hf]
  have := two_pow_mono (show bits pw t - 1 ≤ bits pw f - 1 by omega)
  omega

/-- A value inside the range of a kind is reproduced exactly by the cast. -/
lemma asCast_eq_self {pw : Nat} {k : Kind} {v : Int} (hb : 1 ≤ bits pw k)
    (h1 : minVal pw k ≤ v) (h2 : v ≤ maxVal pw k) : asCast pw k v = v := by
  simp only [minVal, maxVal, maxExp] at h1 h2
  unfold asCast
  cases hs : isSigned k
  · simp only [hs, if_neg, Bool.false_eq_true, if_false] at h1 h2
    simp only [hs, Bool.false_eq_true, false_and, if_false]
    exact Int.emod_eq_of_lt h1 (by have := two_pow_pos (bits pw k); omega)
  · simp only [hs, if_pos, if_true] at h1 h2
    simp only [hs, true_and]
    obtain ⟨c, hc⟩ : ∃ c, bits pw k = c + 1 := ⟨bits pw k - 1, by omega⟩
    rw [hc] at h1 h2 ⊢
    simp only [Nat.add_sub_cancel] at h1 h2 ⊢
    rw [pow_succ]
    have he := two_pow_pos c
    by_cases hv : 0 ≤ v
    · rw [Int.emod_eq_of_lt hv (by omega), if_neg (by omega)]
    · have key : (v + 2 ^ c * 2) % (2 ^ c * 2) = v % (2 ^ c * 2) := by
        simp
      have hm : v % (2 ^ c * 2) = v + 2 ^ c * 2 := by
        rw [← key]
        exact Int.emod_eq_of_lt (by omega) (by omega)
      rw [hm, if_pos (by omega)]
      omega

/-- Promoting the MAX of a kind with smaller-or-equal max exponent is
value-preserving. -/
lemma asCast_maxVal {pw : Nat} {t f : Kind} (hb : 1 ≤ bits pw f)
    (h : maxExp pw t ≤ maxExp pw f) :
    asCast pw f (maxVal pw t) = maxVal pw t :=
  asCast_eq_self hb (le_trans (minVal_nonpos pw f) (maxVal_nonneg pw t))
    (maxVal_le_maxVal h)

/-- Promoting the MIN of a narrower signed kind into a wider signed kind is
value-preserving. -/
lemma asCast_minVal {pw : Nat} {t f : Kind} (hb : 1 ≤ bits pw f)
    (ht : isSigned t = true) (hf : isSigned f = true)
    (h : bits pw t ≤ bits pw f) :
    asCast pw f (minVal pw t) = minVal pw t :=
  asCast_eq_self hb (minVal_le_minVal ht hf h)
    (le_trans (minVal_nonpos pw t) (maxVal_nonneg pw f))

/-! ### Facts about the instantiation tables -/

lemma uu_signs : ∀ p ∈ unsigned_from_unsigned_table,
    isSigned p.1 = false ∧ isSigned p.2 = false := by decide

lemma us_signs : ∀ p ∈ unsigned_from_signed_table,
    isSigned p.1 = false ∧ isSigned p.2 = true := by decide

lemma su_signs : ∀ p ∈ signed_from_unsigned_table,
    isSigned p.1 = true ∧ isSigned p.2 = false := by decide

lemma ss_signs : ∀ p ∈ signed_from_signed_table,
    isSigned p.1 = true ∧ isSigned p.2 = true := by decide

lemma uu_not_infallible : ∀ p ∈ unsigned_from_unsigned_table,
    p ∉ infallible_table := by decide

lemma us_not_earlier : ∀ p ∈ unsigned_from_signed_table,
    p ∉ infallible_table ∧ p ∉ unsigned_from_unsigned_table := by decide

lemma su_not_earlier : ∀ p ∈ signed_from_unsigned_table,
    p ∉ infallible_table ∧ p ∉ unsigned_from_unsigned_table ∧
    p ∉ unsigned_from_signed_table := by decide

lemma ss_not_earlier : ∀ p ∈ signed_from_signed_table,
    p ∉ infallible_table ∧ p ∉ unsigned_from_unsigned_table ∧
    p ∉ unsigned_from_signed_table ∧ p ∉ signed_from_unsigned_table := by
  decide

/-- On a 32-bit or 64-bit target, the range of the source kind of each
infallible pair is contained in the range of the destination kind. -/
lemma infallible_range {pw : Nat} {t f : Kind} (hpw : pw = 4 ∨ pw = 8)
    (h : (t, f) ∈ infallible_table) :
    minVal pw t ≤ minVal pw f ∧ maxVal pw f ≤ maxVal pw t := by
  rcases hpw with rfl | rfl
  · exact (show ∀ p ∈ infallible_table,
      minVal 4 p.1 ≤ minVal 4 p.2 ∧ maxVal 4 p.2 ≤ maxVal 4 p.1 by decide)
      (t, f) h
  · exact (show ∀ p ∈ infallible_table,
      minVal 8 p.1 ≤ minVal 8 p.2 ∧ maxVal 8 p.2 ≤ maxVal 8 p.1 by decide)
      (t, f) h

/-! ### Dispatch lemmas: which policy the dispatcher selects -/

lemma try_from_eq_infallible {t f : Kind} (pw : Nat) (n : Int)
    (h : (t, f) ∈ infallible_table) :
    try_from pw t f n = some (.ok (asCast pw t n)) := by
  unfold try_from
  rw [if_pos h]

lemma try_from_eq_uu {t f : Kind} (pw : Nat) (n : Int)
    (h : (t, f) ∈ unsigned_from_unsigned_table) :
    try_from pw t f n = some (try_from_unsigned_from_unsigned pw t f n) := by
  unfold try_from
  rw [if_neg (uu_not_infallible _ h), if_pos h]

lemma try_from_eq_us {t f : Kind} (pw : Nat) (n : Int)
    (h : (t, f) ∈ unsigned_from_signed_table) :
    try_from pw t f n = some (try_from_unsigned_from_signed pw t f n) := by
  unfold try_from
  rw [if_neg (us_not_earlier _ h).1, if_neg (us_not_earlier _ h).2, if_pos h]

lemma try_from_eq_su {t f : Kind} (pw : Nat) (n : Int)
    (h : (t, f) ∈ signed_from_unsigned_table) :
    try_from pw t f n = some (try_from_signed_from_unsigned pw t f n) := by
  unfold try_from
  rw [if_neg (su_not_earlier _ h).1, if_neg (su_not_earlier _ h).2.1,
    if_neg (su_not_earlier _ h).2.2, if_pos h]

lemma try_from_eq_ss {t f : Kind} (pw : Nat) (n : Int)
    (h : (t, f) ∈ signed_from_signed_table) :
    try_from pw t f n = some (try_from_signed_from_signed pw t f n) := by
  unfold try_from
  rw [if_neg (ss_not_earlier _ h).1, if_neg (ss_not_earlier _ h).2.1,
    if_neg (ss_not_earlier _ h).2.2.1, if_neg (ss_not_earlier _ h).2.2.2,
    if_pos h]

/-! ### Behaviour of each policy on representable inputs, with the
destination bound compared at its exact mathematical value -/

lemma uu_spec {pw : Nat} {t f : Kind} {n : Int} (hpw : 1 ≤ pw)
    (ht : isSigned t = false) (hf : isSigned f = false)
    (hrep : representable pw f n) :
    try_from_unsigned_from_unsigned pw t f n =
      if size_of pw f > size_of pw t ∧ n > maxVal pw t then .error .Overflow
      else .ok n := by
  obtain ⟨hr1, hr2⟩ := hrep
  rw [minVal_unsigned hf] at hr1
  unfold try_from_unsigned_from_unsigned
  by_cases hsz : size_of pw t < size_of pw f
  · have hcast : asCast pw f (maxVal pw t) = maxVal pw t :=
      asCast_maxVal (bits_pos hpw f)
        (by rw [maxExp_unsigned ht, maxExp_unsigned hf]; unfold bits; omega)
    rw [hcast]
    by_cases hof : maxVal pw t < n
    · rw [if_pos ⟨hsz, hof⟩, if_pos ⟨hsz, hof⟩]
    · have hcond : ¬(size_of pw f > size_of pw t ∧ n > maxVal pw t) :=
        fun hcc => hof hcc.2
      rw [if_neg hcond, if_neg hcond]
      exact congrArg Except.ok (asCast_eq_self (bits_pos hpw t)
        (by rw [minVal_unsigned ht]; exact hr1) (by omega))
  · have hc1 : ¬(size_of pw f > size_of pw t ∧
        n > asCast pw f (maxVal pw t)) := fun hcc => hsz hcc.1
    have hc2 : ¬(size_of pw f > size_of pw t ∧ n > maxVal pw t) :=
      fun hcc => hsz hcc.1
    rw [if_neg hc1, if_neg hc2]
    have hle : maxVal pw f ≤ maxVal pw t := maxVal_le_maxVal
      (by rw [maxExp_unsigned ht, maxExp_unsigned hf]; unfold bits; omega)
    exact congrArg Except.ok (asCast_eq_self (bits_pos hpw t)
      (by rw [minVal_unsigned ht]; exact hr1) (by omega))

lemma us_spec {pw : Nat} {t f : Kind} {n : Int} (hpw : 1 ≤ pw)
    (ht : isSigned t = false) (hf : isSigned f = true)
    (hrep : representable pw f n) :
    try_from_unsigned_from_signed pw t f n =
      if n < 0 then .error .Underflow
      else if size_of pw f > size_of pw t ∧ n > maxVal pw t then
        .error .Overflow
      else .ok n := by
  obtain ⟨hr1, hr2⟩ := hrep
  unfold try_from_unsigned_from_signed
  by_cases hneg : n < 0
  · rw [if_pos hneg, if_pos hneg]
  · rw [if_neg hneg, if_neg hneg]
    by_cases hsz : size_of pw t < size_of pw f
    · have hcast : asCast pw f (maxVal pw t) = maxVal pw t :=
        asCast_maxVal (bits_pos hpw f)
          (by rw [maxExp_unsigned ht, maxExp_signed hf]; unfold bits; omega)
      rw [hcast]
      by_cases hof : maxVal pw t < n
      · rw [if_pos ⟨hsz, hof⟩, if_pos ⟨hsz, hof⟩]
      · have hcond : ¬(size_of pw f > size_of pw t ∧ n > maxVal pw t) :=
          fun hcc => hof hcc.2
        rw [if_neg hcond, if_neg hcond]
        exact congrArg Except.ok (asCast_eq_self (bits_pos hpw t)
          (by rw [minVal_unsigned ht]; omega) (by omega))
    · have hc1 : ¬(size_of pw f > size_of pw t ∧
          n > asCast pw f (maxVal pw t)) := fun hcc => hsz hcc.1
      have hc2 : ¬(size_of pw f > size_of pw t ∧ n > maxVal pw t) :=
        fun hcc => hsz hcc.1
      rw [if_neg hc1, if_neg hc2]
      have hle : maxVal pw f ≤ maxVal pw t := maxVal_le_maxVal
        (by rw [maxExp_unsigned ht, maxExp_signed hf]; unfold bits; omega)
      exact congrArg Except.ok (asCast_eq_self (bits_pos hpw t)
        (by rw [minVal_unsigned ht]; omega) (by omega))

lemma su_spec {pw : Nat} {t f : Kind} {n : Int} (hpw : 1 ≤ pw)
    (ht : isSigned t = true) (hf : isSigned f = false)
    (hrep : representable pw f n) :
    try_from_signed_from_unsigned pw t f n =
      if size_of pw f ≥ size_of pw t ∧ n > maxVal pw t then .error .Overflow
      else .ok n := by
  obtain ⟨hr1, hr2⟩ := hrep
  rw [minVal_unsigned hf] at hr1
  unfold try_from_signed_from_unsigned
  by_cases hsz : size_of pw t ≤ size_of pw f
  · have hcast : asCast pw f (maxVal pw t) = maxVal pw t :=
      asCast_maxVal (bits_pos hpw f)
        (by rw [maxExp_signed ht, maxExp_unsigned hf]; unfold bits; omega)
    rw [hcast]
    by_cases hof : maxVal pw t < n
    · rw [if_pos ⟨hsz, hof⟩, if_pos ⟨hsz, hof⟩]
    · have hcond : ¬(size_of pw f ≥ size_of pw t ∧ n > maxVal pw t) :=
        fun hcc => hof hcc.2
      rw [if_neg hcond, if_neg hcond]
      exact congrArg Except.ok (asCast_eq_self (bits_pos hpw t)
        (le_trans (minVal_nonpos pw t) hr1) (by omega))
  · have hc1 : ¬(size_of pw f ≥ size_of pw t ∧
        n > asCast pw f (maxVal pw t)) := fun hcc => hsz hcc.1
    have hc2 : ¬(size_of pw f ≥ size_of pw t ∧ n > maxVal pw t) :=
      fun hcc => hsz hcc.1
    rw [if_neg hc1, if_neg hc2]
    have hle : maxVal pw f ≤ maxVal pw t := maxVal_le_maxVal
      (by rw [maxExp_signed ht, maxExp_unsigned hf]; unfold bits;
          have h1 := size_of_pos hpw f; omega)
    exact congrArg Except.ok (asCast_eq_self (bits_pos hpw t)
      (le_trans (minVal_nonpos pw t) hr1) (by omega))

lemma ss_spec {pw : Nat} {t f : Kind} {n : Int} (hpw : 1 ≤ pw)
    (ht : isSigned t = true) (hf : isSigned f = true)
    (hrep : representable pw f n) :
    try_from_signed_from_signed pw t f n =
      if size_of pw f > size_of pw t then
        if n > maxVal pw t then .error .Overflow
        else if n < minVal pw t then .error .Underflow
        else .ok n
      else .ok n := by
  obtain ⟨hr1, hr2⟩ := hrep
  unfold try_from_signed_from_signed
  by_cases hsz : size_of pw t < size_of pw f
  · rw [if_pos hsz, if_pos hsz]
    have hbits : bits pw t ≤ bits pw f := by unfold bits; omega
    have hcastmax : asCast pw f (maxVal pw t) = maxVal pw t :=
      asCast_maxVal (bits_pos hpw f)
        (by rw [maxExp_signed ht, maxExp_signed hf]; omega)
    have hcastmin : asCast pw f (minVal pw t) = minVal pw t :=
      asCast_minVal (bits_pos hpw f) ht hf hbits
    rw [hcastmax, hcastmin]
    by_cases hof : maxVal pw t < n
    · rw [if_pos hof, if_pos hof]
    · rw [if_neg hof, if_neg hof]
      by_cases huf : n < minVal pw t
      · rw [if_pos huf, if_pos huf]
      · rw [if_neg huf, if_neg huf]
        exact congrArg Except.ok (asCast_eq_self (bits_pos hpw t)
          (by omega) (by omega))
  · rw [if_neg hsz, if_neg hsz]
    have hble : bits pw f ≤ bits pw t := by unfold bits; omega
    have hle : maxVal pw f ≤ maxVal pw t := maxVal_le_maxVal
      (by rw [maxExp_signed ht, maxExp_signed hf]; omega)
    have hge : minVal pw t ≤ minVal pw f := minVal_le_minVal hf ht hble
    exact congrArg Except.ok (asCast_eq_self (bits_pos hpw t)
      (by omega) (by omega))

/-! ### Global behaviour of the dispatcher -/

lemma fallible_subset : ∀ p ∈ fallible_pairs, p ∈ supported_pairs := by decide

lemma mem_supported_some (pw : Nat) (t f : Kind) (n : Int)
    (h : (t, f) ∈ supported_pairs) : ∃ r, try_from pw t f n = some r := by
  simp only [supported_pairs, List.mem_append] at h
  rcases h with (((hm | hm) | hm) | hm) | hm
  · exact ⟨_, try_from_eq_infallible pw n hm⟩
  · exact ⟨_, try_from_eq_uu pw n hm⟩
  · exact ⟨_, try_from_eq_us pw n hm⟩
  · exact ⟨_, try_from_eq_su pw n hm⟩
  · exact ⟨_, try_from_eq_ss pw n hm⟩

/-- Master characterization: on a 32-bit or 64-bit target, for every
supported pair and every representable source value, the conversion is the
pure range test against the exact destination bounds. -/
lemma try_from_spec {pw : Nat} {t f : Kind} {n : Int} (hpw : pw = 4 ∨ pw = 8)
    (hmem : (t, f) ∈ supported_pairs) (hrep : representable pw f n) :
    try_from pw t f n = some (
      if n > maxVal pw t then .error .Overflow
      else if n < minVal pw t then .error .Underflow
      else .ok n) := by
  have hpw1 : 1 ≤ pw := by omega
  have hr1 := hrep.1
  have hr2 := hrep.2
  simp only [supported_pairs, List.mem_append] at hmem
  rcases hmem with (((hm | hm) | hm) | hm) | hm
  · rw [try_from_eq_infallible pw n hm]
    obtain ⟨hmin, hmax⟩ := infallible_range hpw hm
    rw [if_neg (show ¬ n > maxVal pw t by omega),
      if_neg (show ¬ n < minVal pw t by omega),
      asCast_eq_self (bits_pos hpw1 t) (by omega) (by omega)]
  · have hsg := uu_signs _ hm
    have ht : isSigned t = false := hsg.1
    have hf : isSigned f = false := hsg.2
    rw [try_from_eq_uu pw n hm, uu_spec hpw1 ht hf ⟨hr1, hr2⟩]
    by_cases hof : maxVal pw t < n
    · have hexp : maxExp pw t < maxExp pw f := maxExp_lt_of_maxVal_lt (by omega)
      rw [maxExp_unsigned ht, maxExp_unsigned hf] at hexp
      have hsz : size_of pw t < size_of pw f := by unfold bits at hexp; omega
      rw [if_pos ⟨hsz, hof⟩, if_pos hof]
    · have hmin : minVal pw t = 0 := minVal_unsigned ht pw
      have hminf : minVal pw f = 0 := minVal_unsigned hf pw
      rw [if_neg (fun hcc => hof hcc.2), if_neg hof, if_neg (by omega)]
  · have hsg := us_signs _ hm
    have ht : isSigned t = false := hsg.1
    have hf : isSigned f = true := hsg.2
    rw [try_from_eq_us pw n hm, us_spec hpw1 ht hf ⟨hr1, hr2⟩]
    have hmin : minVal pw t = 0 := minVal_unsigned ht pw
    by_cases hneg : n < 0
    · rw [if_pos hneg,
        if_neg (show ¬ n > maxVal pw t by have := maxVal_nonneg pw t; omega),
        if_pos (by omega)]
    · rw [if_neg hneg]
      by_cases hof : maxVal pw t < n
      · have hexp : maxExp pw t < maxExp pw f :=
          maxExp_lt_of_maxVal_lt (by omega)
        rw [maxExp_unsigned ht, maxExp_signed hf] at hexp
        have hsz : size_of pw t < size_of pw f := by unfold bits at hexp; omega
        rw [if_pos ⟨hsz, hof⟩, if_pos hof]
      · rw [if_neg (fun hcc => hof hcc.2), if_neg hof, if_neg (by omega)]
  · have hsg := su_signs _ hm
    have ht : isSigned t = true := hsg.1
    have hf : isSigned f = false := hsg.2
    rw [try_from_eq_su pw n hm, su_spec hpw1 ht hf ⟨hr1, hr2⟩]
    by_cases hof : maxVal pw t < n
    · have hexp : maxExp pw t < maxExp pw f := maxExp_lt_of_maxVal_lt (by omega)
      rw [maxExp_signed ht, maxExp_unsigned hf] at hexp
      have hsz : size_of pw t ≤ size_of pw f := by unfold bits at hexp; omega
      rw [if_pos ⟨hsz, hof⟩, if_pos hof]
    · have hminf : minVal pw f = 0 := minVal_unsigned hf pw
      have hmint := minVal_nonpos pw t
      rw [if_neg (fun hcc => hof hcc.2), if_neg hof, if_neg (by omega)]
  · have hsg := ss_signs _ hm
    have ht : isSigned t = true := hsg.1
    have hf : isSigned f = true := hsg.2
    rw [try_from_eq_ss pw n hm, ss_spec hpw1 ht hf ⟨hr1, hr2⟩]
    by_cases hsz : size_of pw t < size_of pw f
    · rw [if_pos hsz]
    · rw [if_neg hsz]
      have hbits : bits pw f ≤ bits pw t := by unfold bits; omega
      have hle : maxVal pw f ≤ maxVal pw t := maxVal_le_maxVal
        (by rw [maxExp_signed ht, maxExp_signed hf]; omega)
      have hge : minVal pw t ≤ minVal pw f := minVal_le_minVal hf ht hbits
      rw [if_neg (by omega), if_neg (by omega)]

/-! ### Monotonicity of the failure branches, on arbitrary inputs -/

lemma uu_mono_over {pw : Nat} {t f : Kind} {v w : Int}
    (h : try_from_unsigned_from_unsigned pw t f v = .error .Overflow)
    (hlt : v < w) :
    try_from_unsigned_from_unsigned pw t f w = .error .Overflow := by
  unfold try_from_unsigned_from_unsigned at h ⊢
  by_cases hc : size_of pw f > size_of pw t ∧ v > asCast pw f (maxVal pw t)
  · exact if_pos ⟨hc.1, by omega⟩
  · rw [if_neg hc] at h
    simp at h

lemma uu_no_under {pw : Nat} {t f : Kind} {v : Int} :
    try_from_unsigned_from_unsigned pw t f v ≠ .error .Underflow := by
  unfold try_from_unsigned_from_unsigned
  split <;> simp

lemma us_mono_over {pw : Nat} {t f : Kind} {v w : Int}
    (h : try_from_unsigned_from_signed pw t f v = .error .Overflow)
    (hlt : v < w) :
    try_from_unsigned_from_signed pw t f w = .error .Overflow := by
  unfold try_from_unsigned_from_signed at h ⊢
  by_cases hneg : v < 0
  · rw [if_pos hneg] at h
    simp at h
  · rw [if_neg hneg] at h
    by_cases hc : size_of pw f > size_of pw t ∧ v > asCast pw f (maxVal pw t)
    · rw [if_neg (show ¬ w < 0 by omega), if_pos ⟨hc.1, by omega⟩]
    · rw [if_neg hc] at h
      simp at h

lemma us_mono_under {pw : Nat} {t f : Kind} {v w : Int}
    (h : try_from_unsigned_from_signed pw t f v = .error .Underflow)
    (hlt : w < v) :
    try_from_unsigned_from_signed pw t f w = .error .Underflow := by
  unfold try_from_unsigned_from_signed at h ⊢
  by_cases hneg : v < 0
  · exact if_pos (by omega)
  · rw [if_neg hneg] at h
    by_cases hc : size_of pw f > size_of pw t ∧ v > asCast pw f (maxVal pw t)
    · rw [if_pos hc] at h
      simp at h
    · rw [if_neg hc] at h
      simp at h

lemma su_mono_over {pw : Nat} {t f : Kind} {v w : Int}
    (h : try_from_signed_from_unsigned pw t f v = .error .Overflow)
    (hlt : v < w) :
    try_from_signed_from_unsigned pw t f w = .error .Overflow := by
  unfold try_from_signed_from_unsigned at h ⊢
  by_cases hc : size_of pw f ≥ size_of pw t ∧ v > asCast pw f (maxVal pw t)
  · exact if_pos ⟨hc.1, by omega⟩
  · rw [if_neg hc] at h
    simp at h

lemma su_no_under {pw : Nat} {t f : Kind} {v : Int} :
    try_from_signed_from_unsigned pw t f v ≠ .error .Underflow := by
  unfold try_from_signed_from_unsigned
  split <;> simp

lemma ss_mono_over {pw : Nat} {t f : Kind} {v w : Int}
    (h : try_from_signed_from_signed pw t f v = .error .Overflow)
    (hlt : v < w) :
    try_from_signed_from_signed pw t f w = .error .Overflow := by
  unfold try_from_signed_from_signed at h ⊢
  by_cases hsz : size_of pw f > size_of pw t
  · rw [if_pos hsz] at h
    rw [if_pos hsz]
    by_cases hc : v > asCast pw f (maxVal pw t)
    · exact if_pos (by omega)
    · rw [if_neg hc] at h
      by_cases huf : v < asCast pw f (minVal pw t)
      · rw [if_pos huf] at h
        simp at h
      · rw [if_neg huf] at h
        simp at h
  · rw [if_neg hsz] at h
    simp at h

lemma ss_mono_under {pw : Nat} {t f : Kind} {v w : Int}
    (h : try_from_signed_from_signed pw t f v = .error .Underflow)
    (hlt : w < v) :
    try_from_signed_from_signed pw t f w = .error .Underflow := by
  unfold try_from_signed_from_signed at h ⊢
  by_cases hsz : size_of pw f > size_of pw t
  · rw [if_pos hsz] at h
    rw [if_pos hsz]
    by_cases hof : v > asCast pw f (maxVal pw t)
    · rw [if_pos hof] at h
      simp at h
    · rw [if_neg hof] at h
      by_cases huf : v < asCast pw f (minVal pw t)
      · rw [if_neg (show ¬ w > asCast pw f (maxVal pw t) by omega),
          if_pos (show w < asCast pw f (minVal pw t) by omega)]
      · rw [if_neg huf] at h
        simp at h
  · rw [if_neg hsz] at h
    simp at h

/-! ### The claims -/

/-- Claim C1: for every supported ordered pair of integer kinds and every
representable source value, `try_from` returns a defined outcome which is
exactly one of Ok, Err(Overflow), Err(Underflow); the mapping is a pure
total function (it is a Lean function, hence deterministic), with no
supported pair unhandled. -/
theorem c1_total_and_trichotomous (pw : Nat) (t f : Kind) (n : Int)
    (hmem : (t, f) ∈ supported_pairs) (_hrep : representable pw f n) :
    ∃ r, try_from pw t f n = some r ∧
      (((∃ v, r = Except.ok v) ∧
          r ≠ Except.error TryFromIntError.Overflow ∧
          r ≠ Except.error TryFromIntError.Underflow) ∨
       (r = Except.error TryFromIntError.Overflow ∧
          (¬ ∃ v, r = Except.ok v) ∧
          r ≠ Except.error TryFromIntError.Underflow) ∨
       (r = Except.error TryFromIntError.Underflow ∧
          (¬ ∃ v, r = Except.ok v) ∧
          r ≠ Except.error TryFromIntError.Overflow)) := by
  obtain ⟨r, hr⟩ := mem_supported_some pw t f n hmem
  refine ⟨r, hr, ?_⟩
  cases r with
  | ok v => exact Or.inl ⟨⟨v, rfl⟩, by simp, by simp⟩
  | error e =>
    cases e with
    | Overflow => exact Or.inr (Or.inl ⟨rfl, by simp, by simp⟩)
    | Underflow => exact Or.inr (Or.inr ⟨rfl, by simp, by simp⟩)

/-- Witness for C1 at the pair u8-from-u16 and source value 300. -/
theorem c1_witness :
    ∃ r, try_from 8 Kind.u8 Kind.u16 300 = some r ∧
      (((∃ v, r = Except.ok v) ∧
          r ≠ Except.error TryFromIntError.Overflow ∧
          r ≠ Except.error TryFromIntError.Underflow) ∨
       (r = Except.error TryFromIntError.Overflow ∧
          (¬ ∃ v, r = Except.ok v) ∧
          r ≠ Except.error TryFromIntError.Underflow) ∨
       (r = Except.error TryFromIntError.Underflow ∧
          (¬ ∃ v, r = Except.ok v) ∧
          r ≠ Except.error TryFromIntError.Overflow)) :=
  c1_total_and_trichotomous 8 Kind.u8 Kind.u16 300 (by decide) (by decide)

/-- Claim C2: in the unsigned-from-signed policy, the sign test comes
first (negative values give Underflow regardless of magnitude), then
Overflow exactly when the source is strictly wider and the value exceeds
the exact destination maximum, otherwise Ok with the same mathematical
value. -/
theorem c2_unsigned_from_signed_order (pw : Nat) (t f : Kind) (n : Int)
    (hpw : 1 ≤ pw) (hmem : (t, f) ∈ unsigned_from_signed_table)
    (hrep : representable pw f n) :
    try_from pw t f n = some (
      if n < 0 then .error .Underflow
      else if size_of pw f > size_of pw t ∧ n > maxVal pw t then
        .error .Overflow
      else .ok n) := by
  have hsg := us_signs _ hmem
  have ht : isSigned t = false := hsg.1
  have hf : isSigned f = true := hsg.2
  rw [try_from_eq_us pw n hmem, us_spec hpw ht hf hrep]

/-- Witness for C2 at u8-from-i16 and source value -5. -/
theorem c2_witness :
    try_from 8 Kind.u8 Kind.i16 (-5) =
      some (Except.error TryFromIntError.Underflow) :=
  Eq.trans
    (c2_unsigned_from_signed_order 8 Kind.u8 Kind.i16 (-5) (by decide)
      (by decide) (by decide))
    (by rfl)

/-- Claim C3: in the signed-from-unsigned policy the range check applies
whenever the source width is greater than or equal to the destination
width; Overflow holds exactly when the value exceeds the exact destination
maximum, otherwise Ok with the same mathematical value, and Underflow is
never produced for any input whatsoever. -/
theorem c3_signed_from_unsigned_range (pw : Nat) (t f : Kind) (n : Int)
    (hpw : 1 ≤ pw) (hmem : (t, f) ∈ signed_from_unsigned_table)
    (hrep : representable pw f n) :
    (try_from pw t f n = some (
      if size_of pw f ≥ size_of pw t ∧ n > maxVal pw t then .error .Overflow
      else .ok n)) ∧
    (try_from pw t f n = some (.error .Overflow) ↔ n > maxVal pw t) ∧
    (∀ m : Int, try_from pw t f m ≠ some (.error .Underflow)) := by
  have hsg := su_signs _ hmem
  have ht : isSigned t = true := hsg.1
  have hf : isSigned f = false := hsg.2
  have hr2 := hrep.2
  have heq : try_from pw t f n = some (
      if size_of pw f ≥ size_of pw t ∧ n > maxVal pw t then .error .Overflow
      else .ok n) := by
    rw [try_from_eq_su pw n hmem, su_spec hpw ht hf hrep]
  refine ⟨heq, ?_, ?_⟩
  · rw [heq]
    by_cases hc : size_of pw f ≥ size_of pw t ∧ n > maxVal pw t
    · rw [if_pos hc]
      exact ⟨fun _ => hc.2, fun _ => rfl⟩
    · rw [if_neg hc]
      constructor
      · intro hcon
        simp at hcon
      · intro hof
        exfalso
        apply hc
        refine ⟨?_, hof⟩
        have hexp : maxExp pw t < maxExp pw f :=
          maxExp_lt_of_maxVal_lt (by omega)
        rw [maxExp_signed ht, maxExp_unsigned hf] at hexp
        unfold bits at hexp
        omega
  · intro m hcon
    rw [try_from_eq_su pw m hmem] at hcon
    have hval := Option.some.inj hcon
    unfold try_from_signed_from_unsigned at hval
    by_cases hc : size_of pw f ≥ size_of pw t ∧
        m > asCast pw f (maxVal pw t)
    · rw [if_pos hc] at hval
      simp at hval
    · rw [if_neg hc] at hval
      simp at hval

/-- Witness for C3 at i8-from-u8 and source value 200. -/
theorem c3_witness :
    try_from 8 Kind.i8 Kind.u8 200 =
      some (Except.error TryFromIntError.Overflow) :=
  Eq.trans
    (c3_signed_from_unsigned_range 8 Kind.i8 Kind.u8 200 (by decide)
      (by decide) (by decide)).1
    (by rfl)

/-- Claim C4: in the signed-from-signed policy, range checks run only when
the source is strictly wider (Overflow above the exact maximum, then
Underflow below the exact minimum, else Ok); at equal widths the
conversion always succeeds with the same mathematical value and no range
check. -/
theorem c4_signed_from_signed_guard (pw : Nat) (t f : Kind) (n : Int)
    (hpw : 1 ≤ pw) (hmem : (t, f) ∈ signed_from_signed_table)
    (hrep : representable pw f n) :
    (try_from pw t f n = some (
      if size_of pw f > size_of pw t then
        if n > maxVal pw t then .error .Overflow
        else if n < minVal pw t then .error .Underflow
        else .ok n
      else .ok n)) ∧
    (size_of pw f = size_of pw t → try_from pw t f n = some (.ok n)) := by
  have hsg := ss_signs _ hmem
  have ht : isSigned t = true := hsg.1
  have hf : isSigned f = true := hsg.2
  have heq : try_from pw t f n = some (
      if size_of pw f > size_of pw t then
        if n > maxVal pw t then .error .Overflow
        else if n < minVal pw t then .error .Underflow
        else .ok n
      else .ok n) := by
    rw [try_from_eq_ss pw n hmem, ss_spec hpw ht hf hrep]
  refine ⟨heq, fun hsz => ?_⟩
  rw [heq, if_neg (by omega)]

/-- Witness for C4 at i8-from-i16 and source value -129. -/
theorem c4_witness :
    try_from 8 Kind.i8 Kind.i16 (-129) =
      some (Except.error TryFromIntError.Underflow) :=
  Eq.trans
    (c4_signed_from_signed_guard 8 Kind.i8 Kind.i16 (-129) (by decide)
      (by decide) (by decide)).1
    (by rfl)

/-- Claim C5 counterexample: the pair usize-from-u64 lives in the fallible
unsigned-from-unsigned instantiation table and not in the infallible table,
yet on a 64-bit target it is an equal-width unsigned pair; likewise
u32-from-usize is equal-width on a 32-bit target.  So equal-width unsigned
pairs do occur in the fallible unsigned-from-unsigned policy, whose error
type is TryFromIntError rather than the uninhabited type. -/
theorem c5_counterexample :
    (Kind.usize, Kind.u64) ∈ unsigned_from_unsigned_table ∧
    size_of 8 Kind.usize = size_of 8 Kind.u64 ∧
    (Kind.usize, Kind.u64) ∉ infallible_table ∧
    (Kind.u32, Kind.usize) ∈ unsigned_from_unsigned_table ∧
    size_of 4 Kind.u32 = size_of 4 Kind.usize ∧
    (Kind.u32, Kind.usize) ∉ infallible_table := by decide

/-- Claim C5 as amended: every unsigned pair whose kinds have equal width
under both pointer-width resolutions (in particular all equal-width pairs
of fixed-width unsigned kinds, u8 through u64, and the identity pair on
usize), together with the pointer-width pairs u64-from-usize and
usize-from-u32, is in the infallible table, whose error type Void is
uninhabited, so such conversions always return Ok and no error branch
exists; the remaining pointer-width pairs usize-from-u64 and
u32-from-usize are instantiated in the fallible unsigned-from-unsigned
policy, but whenever the pointer-width resolution makes such a pair
equal-width the strict-width guard is false and every representable value
still converts successfully. -/
theorem c5_amended_equal_width :
    (∀ t f : Kind, isSigned t = false → isSigned f = false →
      size_of 4 t = size_of 4 f → size_of 8 t = size_of 8 f →
      (t, f) ∈ infallible_table) ∧
    ((Kind.u64, Kind.usize) ∈ infallible_table ∧
     (Kind.usize, Kind.u32) ∈ infallible_table) ∧
    (Void → False) ∧
    (∀ (pw : Nat) (t : Kind) (n : Int),
      ∃ v, try_from_infallible pw t n = Except.ok v) ∧
    (∀ (pw : Nat) (t f : Kind) (n : Int), (pw = 4 ∨ pw = 8) →
      (t, f) ∈ unsigned_from_unsigned_table →
      size_of pw t = size_of pw f → representable pw f n →
      try_from pw t f n = some (.ok n)) := by
  refine ⟨?_, by decide, ?_, ?_, ?_⟩
  · intro t f
    cases t <;> cases f <;> decide
  · rintro ⟨⟩
  · intro pw t n
    exact ⟨asCast pw t n, rfl⟩
  intro pw t f n hpw hm hsz hrep
  have hpw1 : 1 ≤ pw := by omega
  have hsg := uu_signs _ hm
  have ht : isSigned t = false := hsg.1
  have hf : isSigned f = false := hsg.2
  rw [try_from_eq_uu pw n hm, uu_spec hpw1 ht hf hrep,
    if_neg (fun hc => absurd hc.1 (by omega))]

/-- Witness for the amended C5: usize-from-u64 at 64-bit pointer width on
the value 7 succeeds through the fallible policy. -/
theorem c5_witness :
    try_from 8 Kind.usize Kind.u64 7 = some (Except.ok 7) :=
  c5_amended_equal_width.2.2.2.2 8 Kind.usize Kind.u64 7 (Or.inr rfl)
    (by decide) (by decide) (by decide)

/-- Claim C6: boundary exactness for every fallible pair on a 32-bit or
64-bit target: the destination maximum M converts, M + 1 overflows, the
destination minimum m converts, and m - 1 underflows, in each case
whenever the probed value is representable in the source kind. -/
theorem c6_boundary_exactness (pw : Nat) (t f : Kind)
    (hpw : pw = 4 ∨ pw = 8) (hmem : (t, f) ∈ fallible_pairs) :
    (representable pw f (maxVal pw t) →
      try_from pw t f (maxVal pw t) = some (.ok (maxVal pw t))) ∧
    (representable pw f (maxVal pw t + 1) →
      try_from pw t f (maxVal pw t + 1) = some (.error .Overflow)) ∧
    (representable pw f (minVal pw t) →
      try_from pw t f (minVal pw t) = some (.ok (minVal pw t))) ∧
    (representable pw f (minVal pw t - 1) →
      try_from pw t f (minVal pw t - 1) = some (.error .Underflow)) := by
  have hsup := fallible_subset _ hmem
  have hminmax := minVal_le_maxVal pw t
  refine ⟨fun h => ?_, fun h => ?_, fun h => ?_, fun h => ?_⟩
  · rw [try_from_spec hpw hsup h, if_neg (by omega), if_neg (by omega)]
  · rw [try_from_spec hpw hsup h, if_pos (by omega)]
  · rw [try_from_spec hpw hsup h, if_neg (by omega), if_neg (by omega)]
  · rw [try_from_spec hpw hsup h, if_neg (by omega), if_pos (by omega)]

/-- Witness for C6: u8-from-i16, where the destination maximum plus one
(256) is representable in i16 and overflows. -/
theorem c6_witness :
    try_from 8 Kind.u8 Kind.i16 (maxVal 8 Kind.u8 + 1) =
      some (Except.error TryFromIntError.Overflow) :=
  (c6_boundary_exactness 8 Kind.u8 Kind.i16 (Or.inr rfl) (by decide)).2.1
    (by decide)

/-- Claim C7: monotonic failure for every supported pair: an Overflow at v
forces Overflow at every larger source value, and an Underflow at v forces
Underflow at every smaller source value. -/
theorem c7_monotonic_failure (pw : Nat) (t f : Kind) (v w : Int)
    (hmem : (t, f) ∈ supported_pairs) :
    (try_from pw t f v = some (.error .Overflow) → v < w →
      try_from pw t f w = some (.error .Overflow)) ∧
    (try_from pw t f v = some (.error .Underflow) → w < v →
      try_from pw t f w = some (.error .Underflow)) := by
  simp only [supported_pairs, List.mem_append] at hmem
  rcases hmem with (((hm | hm) | hm) | hm) | hm
  · refine ⟨fun hv _ => ?_, fun hv _ => ?_⟩ <;>
    · rw [try_from_eq_infallible pw v hm] at hv
      simp at hv
  · refine ⟨fun hv hlt => ?_, fun hv _ => ?_⟩
    · rw [try_from_eq_uu pw v hm] at hv
      rw [try_from_eq_uu pw w hm]
      exact congrArg some (uu_mono_over (Option.some.inj hv) hlt)
    · rw [try_from_eq_uu pw v hm] at hv
      exact absurd (Option.some.inj hv) uu_no_under
  · refine ⟨fun hv hlt => ?_, fun hv hlt => ?_⟩
    · rw [try_from_eq_us pw v hm] at hv
      rw [try_from_eq_us pw w hm]
      exact congrArg some (us_mono_over (Option.some.inj hv) hlt)
    · rw [try_from_eq_us pw v hm] at hv
      rw [try_from_eq_us pw w hm]
      exact congrArg some (us_mono_under (Option.some.inj hv) hlt)
  · refine ⟨fun hv hlt => ?_, fun hv _ => ?_⟩
    · rw [try_from_eq_su pw v hm] at hv
      rw [try_from_eq_su pw w hm]
      exact congrArg some (su_mono_over (Option.some.inj hv) hlt)
    · rw [try_from_eq_su pw v hm] at hv
      exact absurd (Option.some.inj hv) su_no_under
  · refine ⟨fun hv hlt => ?_, fun hv hlt => ?_⟩
    · rw [try_from_eq_ss pw v hm] at hv
      rw [try_from_eq_ss pw w hm]
      exact congrArg some (ss_mono_over (Option.some.inj hv) hlt)
    · rw [try_from_eq_ss pw v hm] at hv
      rw [try_from_eq_ss pw w hm]
      exact congrArg some (ss_mono_under (Option.some.inj hv) hlt)

/-- Witness for C7: u8-from-u16 overflows at 300, hence at 301. -/
theorem c7_witness :
    try_from 8 Kind.u8 Kind.u16 301 =
      some (Except.error TryFromIntError.Overflow) :=
  (c7_monotonic_failure 8 Kind.u8 Kind.u16 300 301 (by decide)).1
    (by rfl) (by decide)

/-- Claim C8: round-trip identity on a 32-bit or 64-bit target: whenever a
supported conversion succeeds, the produced value equals the source value
mathematically, and when the reverse pair is also supported, converting
back succeeds and returns the original value. -/
theorem c8_round_trip (pw : Nat) (t f : Kind) (n w : Int)
    (hpw : pw = 4 ∨ pw = 8) (hmem : (t, f) ∈ supported_pairs)
    (hrep : representable pw f n)
    (hok : try_from pw t f n = some (.ok w)) :
    w = n ∧
    ((f, t) ∈ supported_pairs → try_from pw f t w = some (.ok n)) := by
  have hr1 := hrep.1
  have hr2 := hrep.2
  rw [try_from_spec hpw hmem hrep] at hok
  by_cases hof : n > maxVal pw t
  · rw [if_pos hof] at hok
    simp at hok
  · rw [if_neg hof] at hok
    by_cases huf : n < minVal pw t
    · rw [if_pos huf] at hok
      simp at hok
    · rw [if_neg huf] at hok
      have hwn : w = n := (Except.ok.inj (Option.some.inj hok)).symm
      subst hwn
      refine ⟨rfl, fun hmem2 => ?_⟩
      rw [try_from_spec hpw hmem2 ⟨by omega, by omega⟩,
        if_neg (by omega), if_neg (by omega)]

/-- Witness for C8: u8-from-u16 succeeds on 7, and the reverse pair
u16-from-u8 maps the result back to 7. -/
theorem c8_witness :
    (7 : Int) = 7 ∧
    ((Kind.u16, Kind.u8) ∈ supported_pairs →
      try_from 8 Kind.u16 Kind.u8 7 = some (Except.ok 7)) :=
  c8_round_trip 8 Kind.u8 Kind.u16 7 7 (Or.inr rfl) (by decide) (by decide)
    (by rfl)

/-- Claim C9: in every fallible policy instantiation, under the guarding
width condition of that policy, promoting the destination MAX (and MIN,
for signed-from-signed) into the source kind with the Rust cast is
value-preserving, so the comparison in the source domain is against the
exact mathematical bound. -/
theorem c9_bound_promotion (pw : Nat) (hpw : 1 ≤ pw) :
    (∀ t f : Kind, (t, f) ∈ unsigned_from_unsigned_table →
      size_of pw f > size_of pw t →
      asCast pw f (maxVal pw t) = maxVal pw t) ∧
    (∀ t f : Kind, (t, f) ∈ unsigned_from_signed_table →
      size_of pw f > size_of pw t →
      asCast pw f (maxVal pw t) = maxVal pw t) ∧
    (∀ t f : Kind, (t, f) ∈ signed_from_unsigned_table →
      size_of pw f ≥ size_of pw t →
      asCast pw f (maxVal pw t) = maxVal pw t) ∧
    (∀ t f : Kind, (t, f) ∈ signed_from_signed_table →
      size_of pw f > size_of pw t →
      asCast pw f (maxVal pw t) = maxVal pw t ∧
      asCast pw f (minVal pw t) = minVal pw t) := by
  refine ⟨?_, ?_, ?_, ?_⟩
  · intro t f hm hsz
    have hsg := uu_signs _ hm
    have ht : isSigned t = false := hsg.1
    have hf : isSigned f = false := hsg.2
    exact asCast_maxVal (bits_pos hpw f)
      (by rw [maxExp_unsigned ht, maxExp_unsigned hf]; unfold bits; omega)
  · intro t f hm hsz
    have hsg := us_signs _ hm
    have ht : isSigned t = false := hsg.1
    have hf : isSigned f = true := hsg.2
    exact asCast_maxVal (bits_pos hpw f)
      (by rw [maxExp_unsigned ht, maxExp_signed hf]; unfold bits; omega)
  · intro t f hm hsz
    have hsg := su_signs _ hm
    have ht : isSigned t = true := hsg.1
    have hf : isSigned f = false := hsg.2
    exact asCast_maxVal (bits_pos hpw f)
      (by rw [maxExp_signed ht, maxExp_unsigned hf]; unfold bits; omega)
  · intro t f hm hsz
    have hsg := ss_signs _ hm
    have ht : isSigned t = true := hsg.1
    have hf : isSigned f = true := hsg.2
    have hbits : bits pw t ≤ bits pw f := by unfold bits; omega
    exact ⟨asCast_maxVal (bits_pos hpw f)
        (by rw [maxExp_signed ht, maxExp_signed hf]; omega),
      asCast_minVal (bits_pos hpw f) ht hf hbits⟩

/-- Witness for C9: promoting i8 MAX into u8 for the signed-from-unsigned
pair (i8, u8), whose widths are equal, preserves the value 127. -/
theorem c9_witness :
    asCast 8 Kind.u8 (maxVal 8 Kind.i8) = maxVal 8 Kind.i8 :=
  (c9_bound_promotion 8 (by decide)).2.2.1 Kind.i8 Kind.u8 (by decide)
    (by decide)

/-- Claim C10: in the unsigned-from-signed policy, when the signed source
is not strictly wider than the unsigned destination, every non-negative
source value converts successfully; the Overflow branch is unreachable
because the width guard short-circuits the magnitude comparison. -/
theorem c10_nonneg_never_overflows (pw : Nat) (t f : Kind) (n : Int)
    (hpw : 1 ≤ pw) (hmem : (t, f) ∈ unsigned_from_signed_table)
    (hsz : size_of pw f ≤ size_of pw t) (hn : 0 ≤ n)
    (hrep : representable pw f n) :
    try_from pw t f n = some (.ok n) := by
  have hsg := us_signs _ hmem
  have ht : isSigned t = false := hsg.1
  have hf : isSigned f = true := hsg.2
  rw [try_from_eq_us pw n hmem, us_spec hpw ht hf hrep,
    if_neg (by omega), if_neg (fun hc => absurd hc.1 (by omega))]

/-- Witness for C10: u64-from-i64 (equal widths) on the value 100. -/
theorem c10_witness :
    try_from 8 Kind.u64 Kind.i64 100 = some (Except.ok 100) :=
  c10_nonneg_never_overflows 8 Kind.u64 Kind.i64 100 (by decide) (by decide)
    (by decide) (by decide) (by decide)

end TryFromInt
